import Mathlib

/-!
Shallow embedding of the diet-tracker-bot core (food_parser.py, db.py,
recommender.py, models.py).  Python floats are modelled as exact rationals;
the SQLite tables food_items / food_synonyms are modelled as an explicit
in-memory snapshot passed to every function.  Each definition mirrors the
Python function of the same name.
-/

namespace DietBot

/-- A row of the food_items table: canonical name plus per-100g macros. -/
structure Food where
  name : String
  kcal : ℚ
  protein : ℚ
  fat : ℚ
  carbs : ℚ
deriving Repr, DecidableEq, Inhabited

/-- A snapshot of the database: food_items rows and food_synonyms rows
(alias, canonical). -/
structure DB where
  foods : List Food
  synonyms : List (String × String)
deriving Repr, DecidableEq

/-- Whitespace as used by str.strip and the regex class backslash-s on the
inputs this program handles. -/
def isWS (c : Char) : Bool :=
  c == ' ' || c == '\t' || c == '\n' || c == '\r'

/-- Remove leading and trailing whitespace (Python str.strip). -/
def trimChars (cs : List Char) : List Char :=
  ((cs.dropWhile isWS).reverse.dropWhile isWS).reverse

/-- Python str.strip on a String. -/
def strip (s : String) : String :=
  String.mk (trimChars s.data)

/-- Does the first list occur at the start of the second? -/
def prefixAt : List Char → List Char → Bool
  | [], _ => true
  | _ :: _, [] => false
  | a :: as, b :: bs => if a = b then prefixAt as bs else false

/-- Does the needle occur contiguously inside the haystack? -/
def containsSub (needle : List Char) : List Char → Bool
  | [] => needle.isEmpty
  | c :: cs => prefixAt needle (c :: cs) || containsSub needle cs

/-- SQL LIKE with wildcards on both sides: needle occurs inside hay. -/
def strContains (hay needle : String) : Bool :=
  containsSub needle.data hay.data

/-- First value whose key equals the given key (dict lookup, unique keys). -/
def lookupStr {α : Type} (key : String) : List (String × α) → Option α
  | [] => none
  | (k, v) :: rest => if k = key then some v else lookupStr key rest

/-- First row whose canonical name equals the given name (WHERE name=?). -/
def findFoodExact (name : String) : List Food → Option Food
  | [] => none
  | f :: fs => if f.name = name then some f else findFoodExact name fs

/-- ORDER BY LENGTH(name) ASC LIMIT 1 over a candidate row list: the first
row of minimal name length wins. -/
def pickShortest : List Food → Option Food
  | [] => none
  | f :: fs =>
    some (fs.foldl (fun best g =>
      if g.name.data.length < best.name.data.length then g else best) f)

/-- db.get_food: exact name match first, then the LIKE contains fallback
ordered by name length ascending, first row only. -/
def get_food (db : DB) (name : String) : Option Food :=
  match findFoodExact name db.foods with
  | some f => some f
  | none => pickShortest (db.foods.filter (fun f => strContains f.name name))

/-- db.resolve_canonical: strip, alias lookup, then exact food_items match,
otherwise the input name unchanged.  (The partial-match comment in the
source is not implemented there; the contains fallback lives in get_food.) -/
def resolve_canonical (db : DB) (name : String) : String :=
  let name := strip name
  match lookupStr name db.synonyms with
  | some canonical => canonical
  | none =>
    match findFoodExact name db.foods with
    | some f => f.name
    | none => name

/-- UNIT_TO_G conversion table from food_parser.py. -/
def UNIT_TO_G : List (String × ℚ) :=
  [("g", 1), ("kg", 1000), ("ml", 1), ("l", 1000),
   ("개", 50), ("공기", 210), ("큰술", 13.5), ("작은술", 4.5)]

/-- food_parser.to_grams: no unit means grams; unknown unit falls back to
the raw value; known units use the fixed table.  food_name is accepted but
unused, exactly as in the source. -/
def to_grams (value : ℚ) (unit : Option String) (food_name : String) : ℚ :=
  match unit with
  | none => value
  | some u =>
    match lookupStr u UNIT_TO_G with
    | none => value
    | some base => value * base

/-- Unit tokens in the order of the regex alternation
g|kg|ml|l|개|공기|큰술|작은술. -/
def UNIT_TOKENS : List String := ["g", "kg", "ml", "l", "개", "공기", "큰술", "작은술"]

/-- Does the token match at the start of cs, case-insensitively over
ASCII (re.IGNORECASE)? -/
def tokenAtStart : List Char → List Char → Bool
  | [], _ => true
  | _ :: _, [] => false
  | t :: ts, c :: cs => if t.toLower = c.toLower then tokenAtStart ts cs else false

/-- First token of the list matching at this position. -/
def findTok (cs : List Char) : List String → Option String
  | [] => none
  | u :: rest => if tokenAtStart u.data cs then some u else findTok cs rest

/-- First unit token of the alternation matching at this position. -/
def findUnit (cs : List Char) : Option String :=
  findTok cs UNIT_TOKENS

/-- Value of one decimal digit character. -/
def digitVal (c : Char) : Nat :=
  if c = '0' then 0 else if c = '1' then 1 else if c = '2' then 2
  else if c = '3' then 3 else if c = '4' then 4 else if c = '5' then 5
  else if c = '6' then 6 else if c = '7' then 7 else if c = '8' then 8 else 9

/-- Decimal digit run to a natural number. -/
def digitsToNat (ds : List Char) : Nat :=
  ds.foldl (fun acc c => acc * 10 + digitVal c) 0

/-- Match the regex number-plus-optional-unit at a position whose first
character is a digit: greedy digit run, optional dot plus digit run, greedy
whitespace, optional unit token.  Returns the value, the unit and the
remaining characters after the match. -/
def matchNumUnit (cs : List Char) : ℚ × Option String × List Char :=
  let intDs := cs.takeWhile Char.isDigit
  let rest1 := cs.dropWhile Char.isDigit
  let (fracDs, rest2) :=
    match rest1 with
    | '.' :: r =>
      let ds := r.takeWhile Char.isDigit
      if ds.isEmpty then (([] : List Char), rest1) else (ds, r.dropWhile Char.isDigit)
    | _ => (([] : List Char), rest1)
  let rest3 := rest2.dropWhile isWS
  let unit := findUnit rest3
  let rest4 :=
    match unit with
    | some u => rest3.drop u.data.length
    | none => rest3
  let value : ℚ := (digitsToNat intDs : ℚ) + (digitsToNat fracDs : ℚ) / (10 : ℚ) ^ fracDs.length
  (value, unit, rest4)

/-- re.search of NUM_UNIT_RE: leftmost match starts at the first digit.
Returns the characters before the match, the value, the unit, and the
characters after the match. -/
def searchNumUnit : List Char → Option (List Char × ℚ × Option String × List Char)
  | [] => none
  | c :: cs =>
    if c.isDigit then
      let r := matchNumUnit (c :: cs)
      some ([], r.1, r.2.1, r.2.2)
    else
      match searchNumUnit cs with
      | some (pre, v, u, post) => some (c :: pre, v, u, post)
      | none => none

/-- food_parser.extract_amount. -/
def extract_amount (seg : String) : Option (ℚ × Option String) :=
  (searchNumUnit seg.data).map (fun r => (r.2.1, r.2.2.1))

/-- text.replace applied to the conjunction word, turning it into a comma. -/
def replaceGrigo : List Char → List Char
  | '그' :: '리' :: '고' :: rest => ',' :: replaceGrigo rest
  | c :: rest => c :: replaceGrigo rest
  | [] => []

/-- Segment separators of re.split: comma, newline, slash. -/
def isSep (c : Char) : Bool := c == ',' || c == '\n' || c == '/'

/-- Split at every character satisfying p, keeping empty parts, exactly
like re.split over single-character alternatives. -/
def splitBy (p : Char → Bool) : List Char → List (List Char)
  | [] => [[]]
  | c :: rest =>
    if p c then [] :: splitBy p rest
    else
      match splitBy p rest with
      | [] => [[c]]
      | q :: qs => (c :: q) :: qs

/-- food_parser.split_items: normalize the conjunction word to a comma,
split on separators, strip each part, drop empties. -/
def split_items (text : String) : List String :=
  (((splitBy isSep (replaceGrigo text.data))).map
    (fun p => String.mk (trimChars p))).filter (fun s => !s.data.isEmpty)

/-- re.sub collapsing each whitespace run to a single space; the flag says
whether we are inside a run whose single space was already emitted. -/
def collapseWSAux : List Char → Bool → List Char
  | [], _ => []
  | c :: rest, inRun =>
    if isWS c then
      (if inRun then ([] : List Char) else [' ']) ++ collapseWSAux rest true
    else c :: collapseWSAux rest false

/-- re.sub collapsing each whitespace run to a single space. -/
def collapseWS (cs : List Char) : List Char := collapseWSAux cs false

/-- food_parser.ParsedItem. -/
structure ParsedItem where
  raw_name : String
  canonical_name : String
  grams : ℚ
deriving Repr, DecidableEq

/-- The name candidate of a segment inside parse_text: remove the matched
number-unit span and strip, collapse whitespace runs and strip, and fall
back to the stripped segment when that leaves nothing. -/
def namePart (seg : String) : String :=
  let cs := seg.data
  let base :=
    match searchNumUnit cs with
    | some (pre, _, _, post) => trimChars (pre ++ post)
    | none => cs
  let np := trimChars (collapseWS base)
  if np.isEmpty then String.mk (trimChars cs) else String.mk np

/-- One iteration of the parse_text loop: some item, or none meaning the
segment is unresolved. -/
def processSegment (db : DB) (seg : String) : Option ParsedItem :=
  let amt := extract_amount seg
  let np := namePart seg
  let canonical := resolve_canonical db np
  let value_g : ℚ :=
    match amt with
    | some (v, u) => to_grams v u canonical
    | none => 100
  match get_food db canonical with
  | some f => some ⟨np, f.name, value_g⟩
  | none =>
    match get_food db np with
    | some f => some ⟨np, f.name, value_g⟩
    | none => none

/-- The parse_text loop over the segments, preserving order. -/
def parseLoop (db : DB) : List String → List ParsedItem × List String
  | [] => ([], [])
  | seg :: rest =>
    let tail := parseLoop db rest
    match processSegment db seg with
    | some it => (it :: tail.1, tail.2)
    | none => (tail.1, seg :: tail.2)

/-- food_parser.parse_text. -/
def parse_text (db : DB) (text : String) : List ParsedItem × List String :=
  parseLoop db (split_items text)

/-- food_parser's nutrition record {kcal, protein, fat, carbs}. -/
structure Nutrition where
  kcal : ℚ
  protein : ℚ
  fat : ℚ
  carbs : ℚ
deriving Repr, DecidableEq

/-- food_parser.compute_nutrition. -/
def compute_nutrition (db : DB) (canonical_name : String) (grams : ℚ) : Nutrition :=
  match get_food db canonical_name with
  | none => ⟨0, 0, 0, 0⟩
  | some f =>
    let factor := grams / 100
    ⟨f.kcal * factor, f.protein * factor, f.fat * factor, f.carbs * factor⟩

/-- recommender.FoodPortion. -/
structure FoodPortion where
  name : String
  grams : ℚ
  kcal : ℚ
  protein : ℚ
  fat : ℚ
  carbs : ℚ
deriving Repr, DecidableEq, Inhabited

/-- recommender.nutrition_for. -/
def nutrition_for (db : DB) (name : String) (grams : ℚ) : FoodPortion :=
  match get_food db name with
  | none => ⟨name, grams, 0, 0, 0, 0⟩
  | some f =>
    let factor := grams / 100
    ⟨name, grams, f.kcal * factor, f.protein * factor, f.fat * factor, f.carbs * factor⟩

/-- recommender.PROTEIN_FOODS, in source order. -/
def PROTEIN_FOODS : List String :=
  ["닭가슴살", "참치캔(물)", "계란", "두부", "요거트", "연어", "고등어"]

/-- recommender.CARB_FOODS, in source order. -/
def CARB_FOODS : List String := ["백미밥", "현미밥", "고구마", "바나나", "사과"]

/-- recommender.FAT_HELPERS, in source order. -/
def FAT_HELPERS : List String := ["연어", "고등어", "요거트"]

/-- The running portions and totals of one meal slot of recommend_meals. -/
structure MealState where
  portions : List FoodPortion
  kcal : ℚ
  protein : ℚ
  fat : ℚ
  carbs : ℚ
deriving Repr, DecidableEq

/-- Append a portion and add its macros to the running totals. -/
def addPortion (st : MealState) (fp : FoodPortion) : MealState :=
  ⟨st.portions ++ [fp], st.kcal + fp.kcal, st.protein + fp.protein,
   st.fat + fp.fat, st.carbs + fp.carbs⟩

/-- The protein-candidate scan of recommend_meals: filter avoid out of
prefer plus the protein pool and pick the first name present in the
catalog, together with its catalog row. -/
def pickProtein (db : DB) (prefer avoid : List String) : Option (String × Food) :=
  ((prefer ++ PROTEIN_FOODS).filter (fun f => decide (f ∉ avoid))).findSome?
    (fun cand => (get_food db cand).map (fun f => (cand, f)))

/-- The protein slot of recommend_meals: if a candidate was picked, size it
by the clamped protein heuristic and add it; otherwise leave the state. -/
def proteinSlot (db : DB) (prefer avoid : List String) (protein_per_meal : ℚ)
    (st : MealState) : MealState :=
  match pickProtein db prefer avoid with
  | none => st
  | some (picked, f) =>
    let grams := min 200 (max 50 (protein_per_meal / max f.protein 0.1 * 100))
    addPortion st (nutrition_for db picked grams)

/-- The carbohydrate loop of recommend_meals, with both break conditions. -/
def carbLoop (db : DB) (avoid : List String) (lower per_meal : ℚ) :
    List String → MealState → MealState
  | [], st => st
  | carb :: rest, st =>
    if carb ∈ avoid then carbLoop db avoid lower per_meal rest st
    else
      match get_food db carb with
      | none => carbLoop db avoid lower per_meal rest st
      | some info =>
        let remain := if st.kcal < lower then max (lower - st.kcal) 0 else per_meal - st.kcal
        if remain ≤ 0 then st
        else
          let g := min 250 (max 80 (remain / max info.kcal (1 / 1000000) * 100))
          let st2 := addPortion st (nutrition_for db carb g)
          if lower ≤ st2.kcal then st2
          else carbLoop db avoid lower per_meal rest st2

/-- The fat-helper loop of recommend_meals. -/
def fatLoop (db : DB) (avoid : List String) (lower per_meal : ℚ) :
    List String → MealState → MealState
  | [], st => st
  | fatname :: rest, st =>
    if fatname ∈ avoid then fatLoop db avoid lower per_meal rest st
    else
      match get_food db fatname with
      | none => fatLoop db avoid lower per_meal rest st
      | some info =>
        let add := min 100 (max 30 ((per_meal - st.kcal) / max info.kcal (1 / 1000000) * 100))
        let st2 := addPortion st (nutrition_for db fatname add)
        if lower ≤ st2.kcal then st2
        else fatLoop db avoid lower per_meal rest st2

/-- recommender.MealPlan: the per-slot dict with items and totals. -/
structure MealPlan where
  items : List FoodPortion
  kcal : ℚ
  protein : ℚ
  fat : ℚ
  carbs : ℚ
deriving Repr, DecidableEq, Inhabited

/-- One iteration of the meal loop of recommend_meals: protein slot, then
the carbohydrate loop over prefer plus CARB_FOODS, then the fat helper
loop when the total is still under the lower tolerance bound. -/
def buildPlan (db : DB) (prefer avoid : List String) (lower per_meal protein_per_meal : ℚ) :
    MealPlan :=
  let st0 : MealState := ⟨[], 0, 0, 0, 0⟩
  let st1 := proteinSlot db prefer avoid protein_per_meal st0
  let st2 := carbLoop db avoid lower per_meal (prefer ++ CARB_FOODS) st1
  let st3 := if st2.kcal < lower then fatLoop db avoid lower per_meal FAT_HELPERS st2 else st2
  ⟨st3.portions, st3.kcal, st3.protein, st3.fat, st3.carbs⟩

/-- The for-loop over the meal slots, appending one plan per slot. -/
def mealsLoop (db : DB) (prefer avoid : List String) (lower per_meal protein_per_meal : ℚ) :
    Nat → List MealPlan
  | 0 => []
  | n + 1 =>
    mealsLoop db prefer avoid lower per_meal protein_per_meal n
      ++ [buildPlan db prefer avoid lower per_meal protein_per_meal]

/-- recommender.recommend_meals.  macro_ratio is the Python dict as an
association list; the avoid set is modelled by list membership and the
prefer set by the given list order (Python set iteration order is fixed
within one call). -/
def recommend_meals (db : DB) (target_kcal : ℚ) (macro_ratio : List (String × ℚ))
    (body_weight : ℚ) (meals : Nat) (avoid prefer : List String) : List MealPlan :=
  let per_meal := target_kcal / meals
  let lower := per_meal * 0.9
  let protein_target_g :=
    max (1.6 * body_weight) (target_kcal * ((lookupStr "protein" macro_ratio).getD 0.3) / 4)
  let protein_per_meal := protein_target_g / meals
  mealsLoop db prefer avoid lower per_meal protein_per_meal meals

/-- models.py macro-ratio record {carb, protein, fat}. -/
structure Ratios where
  carb : ℚ
  protein : ℚ
  fat : ℚ
deriving Repr, DecidableEq

/-- Unsigned Python float literal: digits, optionally dot and digits, with
at least one digit overall. -/
def parseUnsigned (cs : List Char) : Option ℚ :=
  let intDs := cs.takeWhile Char.isDigit
  let rest := cs.dropWhile Char.isDigit
  match rest with
  | [] => if intDs.isEmpty then none else some (digitsToNat intDs : ℚ)
  | '.' :: r =>
    let fracDs := r.takeWhile Char.isDigit
    let rest2 := r.dropWhile Char.isDigit
    if !rest2.isEmpty then none
    else if intDs.isEmpty && fracDs.isEmpty then none
    else some ((digitsToNat intDs : ℚ) + (digitsToNat fracDs : ℚ) / (10 : ℚ) ^ fracDs.length)
  | _ => none

/-- Python float() on the decimal literals this program receives: optional
sign around an unsigned decimal literal; anything else fails. -/
def parseFloat (s : String) : Option ℚ :=
  match trimChars s.data with
  | '-' :: rest => (parseUnsigned rest).map (fun q => -q)
  | '+' :: rest => parseUnsigned rest
  | cs => parseUnsigned cs

/-- models.parse_macro_str: split on commas and strip, require exactly
three float parts, fail on a non-positive sum, otherwise normalize. -/
def parse_macro_str (s : String) : Except String Ratios :=
  let parts := (splitBy (fun ch => ch == ',') s.data).map (fun p => String.mk (trimChars p))
  match parts with
  | [a, b, c] =>
    match parseFloat a, parseFloat b, parseFloat c with
    | some cv, some pv, some fv =>
      let total := cv + pv + fv
      if total ≤ 0 then Except.error "macro ratios must be positive"
      else Except.ok ⟨cv / total, pv / total, fv / total⟩
    | _, _, _ => Except.error "malformed float literal"
  | _ => Except.error "macro must be carb,protein,fat"

/-- A concrete reference catalog snapshot with the per-100g values quoted
in the repository tests and docs, used to instantiate the theorems. -/
def refDB : DB :=
  { foods := [
      ⟨"계란", 155, 13, 11, 1.1⟩,
      ⟨"토마토", 18, 0.9, 0.2, 3.9⟩,
      ⟨"닭가슴살", 165, 31, 3.6, 0⟩,
      ⟨"백미밥", 130, 2.7, 0.3, 28⟩,
      ⟨"두부", 76, 8, 4.8, 1.9⟩,
      ⟨"고구마", 86, 1.6, 0.1, 20⟩,
      ⟨"연어", 208, 20, 13, 0⟩],
    synonyms := [("달걀", "계란"), ("밥", "백미밥")] }

/-- A one-row catalog with no synonyms, exercising the substring fallback. -/
def exDB : DB :=
  { foods := [⟨"닭가슴살", 165, 31, 3.6, 0⟩], synonyms := [] }

/-- The macro ratio dict used by the repository tests. -/
def mrW : List (String × ℚ) := [("carb", 0.4), ("protein", 0.3), ("fat", 0.3)]

/-- An avoid list covering every carbohydrate-pool and fat-helper name. -/
def avoidCarbFat : List String :=
  ["백미밥", "현미밥", "고구마", "바나나", "사과", "연어", "고등어", "요거트"]

/-- The resolver chain as the specification words it (spec 4.3 step 4 and
section 6): alias lookup, then exact catalog match, then substring catalog
match with the shortest matching canonical name winning, otherwise the
input unchanged. -/
def resolveCanonicalSpec (db : DB) (name : String) : String :=
  let name := strip name
  match lookupStr name db.synonyms with
  | some canonical => canonical
  | none =>
    match findFoodExact name db.foods with
    | some f => f.name
    | none =>
      match pickShortest (db.foods.filter (fun f => strContains f.name name)) with
      | some f => f.name
      | none => name

/-! ## Shared lemmas -/

/-- findFoodExact only returns rows of the list whose name is the key. -/
theorem findFoodExact_some (name : String) :
    ∀ (l : List Food) (f : Food), findFoodExact name l = some f → f ∈ l ∧ f.name = name := by
  intro l
  induction l with
  | nil => intro f h; simp [findFoodExact] at h
  | cons a l ih =>
    intro f h
    rw [findFoodExact] at h
    by_cases ha : a.name = name
    · rw [if_pos ha] at h
      cases h
      exact ⟨List.mem_cons_self _ _, ha⟩
    · rw [if_neg ha] at h
      obtain ⟨h1, h2⟩ := ih f h
      exact ⟨List.mem_cons_of_mem _ h1, h2⟩

/-- The foldl kept by pickShortest stays inside the candidate list and ends
with a name of minimal length. -/
theorem pickShortest_foldl_spec (fs : List Food) :
    ∀ f : Food,
      (fs.foldl (fun best g =>
        if g.name.data.length < best.name.data.length then g else best) f) ∈ f :: fs ∧
      ∀ g ∈ f :: fs,
        (fs.foldl (fun best g =>
          if g.name.data.length < best.name.data.length then g else best) f).name.data.length
          ≤ g.name.data.length := by
  induction fs with
  | nil => intro f; exact ⟨List.mem_singleton.mpr rfl, by intro g hg; simp at hg; simp [hg]⟩
  | cons a fs ih =>
    intro f
    obtain ⟨hmem, hmin⟩ := ih (if a.name.data.length < f.name.data.length then a else f)
    have hif : (if a.name.data.length < f.name.data.length then a else f) = a ∨
        (if a.name.data.length < f.name.data.length then a else f) = f := by
      by_cases hlt : a.name.data.length < f.name.data.length
      · exact Or.inl (if_pos hlt)
      · exact Or.inr (if_neg hlt)
    have hlef : (if a.name.data.length < f.name.data.length then a else f).name.data.length
        ≤ f.name.data.length := by
      by_cases hlt : a.name.data.length < f.name.data.length
      · simp only [hlt, if_true]; omega
      · simp only [hlt, if_false]; omega
    have hlea : (if a.name.data.length < f.name.data.length then a else f).name.data.length
        ≤ a.name.data.length := by
      by_cases hlt : a.name.data.length < f.name.data.length
      · simp only [hlt, if_true]; omega
      · simp only [hlt, if_false]; omega
    rw [List.foldl_cons]
    constructor
    · rcases List.mem_cons.mp hmem with h1 | h1
      · rw [h1]
        rcases hif with h2 | h2 <;> rw [h2] <;> simp
      · exact List.mem_cons_of_mem _ (List.mem_cons_of_mem _ h1)
    · intro g hg
      have hres := hmin _ (List.mem_cons_self _ _)
      rcases List.mem_cons.mp hg with rfl | hg2
      · exact le_trans hres hlef
      · rcases List.mem_cons.mp hg2 with rfl | hg3
        · exact le_trans hres hlea
        · exact hmin g (List.mem_cons_of_mem _ hg3)

/-- pickShortest returns a member of minimal name length. -/
theorem pickShortest_spec (l : List Food) (f : Food) (h : pickShortest l = some f) :
    f ∈ l ∧ ∀ g ∈ l, f.name.data.length ≤ g.name.data.length := by
  cases l with
  | nil => simp [pickShortest] at h
  | cons a l =>
    have hs := pickShortest_foldl_spec l a
    simp only [pickShortest, Option.some.injEq] at h
    rw [h] at hs
    exact hs

/-- Whatever get_food returns is a row of the catalog. -/
theorem get_food_mem (db : DB) (name : String) (f : Food)
    (h : get_food db name = some f) : f ∈ db.foods := by
  unfold get_food at h
  cases hf : findFoodExact name db.foods with
  | some g =>
    rw [hf] at h
    cases h
    exact (findFoodExact_some name db.foods _ hf).1
  | none =>
    rw [hf] at h
    have := (pickShortest_spec _ _ h).1
    exact (List.mem_filter.mp this).1

/-- findSome? splits its list at the first hit, with misses before it. -/
theorem findSome?_split {α β : Type} (f : α → Option β) :
    ∀ (l : List α) (b : β), l.findSome? f = some b →
      ∃ l1 a l2, l = l1 ++ a :: l2 ∧ f a = some b ∧ ∀ x ∈ l1, f x = none := by
  intro l
  induction l with
  | nil => intro b h; simp [List.findSome?_nil] at h
  | cons a l ih =>
    intro b h
    rw [List.findSome?_cons] at h
    cases hfa : f a with
    | some c =>
      rw [hfa] at h
      cases h
      exact ⟨[], a, l, by simp, hfa, by simp⟩
    | none =>
      rw [hfa] at h
      obtain ⟨l1, x, l2, hl, hx, hmiss⟩ := ih b h
      refine ⟨a :: l1, x, l2, by simp [hl], hx, ?_⟩
      intro y hy
      rcases List.mem_cons.mp hy with rfl | hy2
      · exact hfa
      · exact hmiss y hy2

/-- Every plan the meal loop emits is the single plan the loop body builds. -/
theorem mem_mealsLoop (db : DB) (prefer avoid : List String) (lower per_meal ppm : ℚ) :
    ∀ (n : Nat) (plan : MealPlan), plan ∈ mealsLoop db prefer avoid lower per_meal ppm n →
      plan = buildPlan db prefer avoid lower per_meal ppm := by
  intro n
  induction n with
  | zero => intro plan h; simp [mealsLoop] at h
  | succ n ih =>
    intro plan h
    rw [mealsLoop] at h
    rcases List.mem_append.mp h with h1 | h1
    · exact ih plan h1
    · simpa using h1

/-- The meal loop emits one plan per slot. -/
theorem mealsLoop_length (db : DB) (prefer avoid : List String) (lower per_meal ppm : ℚ) :
    ∀ n : Nat, (mealsLoop db prefer avoid lower per_meal ppm n).length = n := by
  intro n
  induction n with
  | zero => rfl
  | succ n ih => rw [mealsLoop]; simp [ih]

/-- The carbohydrate loop only ever appends portions. -/
theorem carbLoop_portions (db : DB) (avoid : List String) (lower per_meal : ℚ) :
    ∀ (cands : List String) (st : MealState),
      ∃ l, (carbLoop db avoid lower per_meal cands st).portions = st.portions ++ l := by
  intro cands
  induction cands with
  | nil => intro st; exact ⟨[], by simp [carbLoop]⟩
  | cons c cands ih =>
    intro st
    simp only [carbLoop]
    by_cases hav : c ∈ avoid
    · simp only [if_pos hav]
      exact ih st
    · simp only [if_neg hav]
      cases hf : get_food db c with
      | none => exact ih st
      | some info =>
        by_cases hrem :
            (if st.kcal < lower then max (lower - st.kcal) 0 else per_meal - st.kcal) ≤ 0
        · simp only [if_pos hrem]
          exact ⟨[], by simp⟩
        · simp only [if_neg hrem]
          set fp := nutrition_for db c
            (min 250 (max 80
              ((if st.kcal < lower then max (lower - st.kcal) 0 else per_meal - st.kcal) /
                max info.kcal (1 / 1000000) * 100))) with hfp
          by_cases hbr : lower ≤ (addPortion st fp).kcal
          · simp only [if_pos hbr]
            exact ⟨[fp], rfl⟩
          · simp only [if_neg hbr]
            obtain ⟨l, hl⟩ := ih (addPortion st fp)
            exact ⟨fp :: l, by rw [hl]; simp [addPortion, one_div]⟩

/-- The fat-helper loop only ever appends portions. -/
theorem fatLoop_portions (db : DB) (avoid : List String) (lower per_meal : ℚ) :
    ∀ (cands : List String) (st : MealState),
      ∃ l, (fatLoop db avoid lower per_meal cands st).portions = st.portions ++ l := by
  intro cands
  induction cands with
  | nil => intro st; exact ⟨[], by simp [fatLoop]⟩
  | cons c cands ih =>
    intro st
    simp only [fatLoop]
    by_cases hav : c ∈ avoid
    · simp only [if_pos hav]
      exact ih st
    · simp only [if_neg hav]
      cases hf : get_food db c with
      | none => exact ih st
      | some info =>
        set fp := nutrition_for db c
          (min 100 (max 30 ((per_meal - st.kcal) / max info.kcal (1 / 1000000) * 100))) with hfp
        by_cases hbr : lower ≤ (addPortion st fp).kcal
        · simp only [if_pos hbr]
          exact ⟨[fp], rfl⟩
        · simp only [if_neg hbr]
          obtain ⟨l, hl⟩ := ih (addPortion st fp)
          exact ⟨fp :: l, by rw [hl]; simp [addPortion, one_div]⟩

/-- Segments whose processing yields nothing land in the unresolved list. -/
theorem mem_parseLoop_unresolved (db : DB) :
    ∀ (segs : List String) (seg : String), seg ∈ segs → processSegment db seg = none →
      seg ∈ (parseLoop db segs).2 := by
  intro segs
  induction segs with
  | nil => intro seg h; simp at h
  | cons s rest ih =>
    intro seg hm hp
    rcases List.mem_cons.mp hm with rfl | hm2
    · rw [parseLoop]
      simp [hp]
    · rw [parseLoop]
      cases hs : processSegment db s <;> simp [hs, ih seg hm2 hp]

/-- If some list element maps to a hit, findSome? yields a hit. -/
theorem findSome?_isSome {α β : Type} (f : α → Option β) :
    ∀ l : List α, (∃ a ∈ l, (f a).isSome) → (l.findSome? f).isSome := by
  intro l
  induction l with
  | nil => intro h; simp at h
  | cons a l ih =>
    intro h
    rw [List.findSome?_cons]
    cases hfa : f a with
    | some b => simp
    | none =>
      apply ih
      obtain ⟨x, hx, hxs⟩ := h
      rcases List.mem_cons.mp hx with rfl | hx2
      · rw [hfa] at hxs; simp at hxs
      · exact ⟨x, hx2, hxs⟩

/-- A protein-pool name outside avoid and present in the catalog makes the
protein scan succeed. -/
theorem pickProtein_isSome (db : DB) (prefer avoid : List String) (p : String)
    (hp : p ∈ PROTEIN_FOODS) (hav : p ∉ avoid) (hg : (get_food db p).isSome) :
    (pickProtein db prefer avoid).isSome := by
  apply findSome?_isSome
  refine ⟨p, List.mem_filter.mpr ⟨List.mem_append_right _ hp, by simpa using hav⟩, ?_⟩
  cases hgf : get_food db p with
  | none => rw [hgf] at hg; simp at hg
  | some f => simp [hgf]

/-- nutrition_for has non-negative macros for non-negative catalog macros
and a non-negative portion size. -/
theorem nutrition_for_nonneg (db : DB)
    (hdb : ∀ f ∈ db.foods, 0 ≤ f.kcal ∧ 0 ≤ f.protein ∧ 0 ≤ f.fat ∧ 0 ≤ f.carbs)
    (name : String) (g : ℚ) (hg : 0 ≤ g) :
    0 ≤ (nutrition_for db name g).kcal ∧ 0 ≤ (nutrition_for db name g).protein ∧
    0 ≤ (nutrition_for db name g).fat ∧ 0 ≤ (nutrition_for db name g).carbs := by
  unfold nutrition_for
  cases hf : get_food db name with
  | none => norm_num
  | some f =>
    obtain ⟨h1, h2, h3, h4⟩ := hdb f (get_food_mem db name f hf)
    have hfac : (0 : ℚ) ≤ g / 100 := by positivity
    exact ⟨mul_nonneg h1 hfac, mul_nonneg h2 hfac, mul_nonneg h3 hfac, mul_nonneg h4 hfac⟩

/-- The clamp used for portion sizes is bounded below by its floor. -/
theorem clamp_nonneg (a b x : ℚ) (ha : 0 ≤ a) (hb : 0 ≤ b) : 0 ≤ min a (max b x) :=
  le_min ha (le_trans hb (le_max_left _ _))

/-- Adding a non-negative portion preserves non-negative totals. -/
theorem addPortion_nonneg (st : MealState) (fp : FoodPortion)
    (hst : 0 ≤ st.kcal ∧ 0 ≤ st.protein ∧ 0 ≤ st.fat ∧ 0 ≤ st.carbs)
    (hfp : 0 ≤ fp.kcal ∧ 0 ≤ fp.protein ∧ 0 ≤ fp.fat ∧ 0 ≤ fp.carbs) :
    0 ≤ (addPortion st fp).kcal ∧ 0 ≤ (addPortion st fp).protein ∧
    0 ≤ (addPortion st fp).fat ∧ 0 ≤ (addPortion st fp).carbs :=
  ⟨add_nonneg hst.1 hfp.1, add_nonneg hst.2.1 hfp.2.1,
   add_nonneg hst.2.2.1 hfp.2.2.1, add_nonneg hst.2.2.2 hfp.2.2.2⟩

/-- The carbohydrate loop preserves non-negative totals. -/
theorem carbLoop_nonneg (db : DB) (avoid : List String) (lower per_meal : ℚ)
    (hdb : ∀ f ∈ db.foods, 0 ≤ f.kcal ∧ 0 ≤ f.protein ∧ 0 ≤ f.fat ∧ 0 ≤ f.carbs) :
    ∀ (cands : List String) (st : MealState),
      0 ≤ st.kcal ∧ 0 ≤ st.protein ∧ 0 ≤ st.fat ∧ 0 ≤ st.carbs →
      0 ≤ (carbLoop db avoid lower per_meal cands st).kcal ∧
      0 ≤ (carbLoop db avoid lower per_meal cands st).protein ∧
      0 ≤ (carbLoop db avoid lower per_meal cands st).fat ∧
      0 ≤ (carbLoop db avoid lower per_meal cands st).carbs := by
  intro cands
  induction cands with
  | nil => intro st hst; simpa [carbLoop] using hst
  | cons c cands ih =>
    intro st hst
    simp only [carbLoop]
    by_cases hav : c ∈ avoid
    · simp only [if_pos hav]
      exact ih st hst
    · simp only [if_neg hav]
      cases hf : get_food db c with
      | none => exact ih st hst
      | some info =>
        by_cases hrem :
            (if st.kcal < lower then max (lower - st.kcal) 0 else per_meal - st.kcal) ≤ 0
        · simp only [if_pos hrem]
          exact hst
        · simp only [if_neg hrem]
          have hg : (0 : ℚ) ≤ min 250 (max 80
              ((if st.kcal < lower then max (lower - st.kcal) 0 else per_meal - st.kcal) /
                max info.kcal (1 / 1000000) * 100)) :=
            clamp_nonneg _ _ _ (by norm_num) (by norm_num)
          have hadd := addPortion_nonneg st _ hst (nutrition_for_nonneg db hdb c _ hg)
          by_cases hbr : lower ≤ (addPortion st (nutrition_for db c
              (min 250 (max 80
                ((if st.kcal < lower then max (lower - st.kcal) 0 else per_meal - st.kcal) /
                  max info.kcal (1 / 1000000) * 100))))).kcal
          · simp only [if_pos hbr]
            exact hadd
          · simp only [if_neg hbr]
            exact ih _ hadd

/-- The fat-helper loop preserves non-negative totals. -/
theorem fatLoop_nonneg (db : DB) (avoid : List String) (lower per_meal : ℚ)
    (hdb : ∀ f ∈ db.foods, 0 ≤ f.kcal ∧ 0 ≤ f.protein ∧ 0 ≤ f.fat ∧ 0 ≤ f.carbs) :
    ∀ (cands : List String) (st : MealState),
      0 ≤ st.kcal ∧ 0 ≤ st.protein ∧ 0 ≤ st.fat ∧ 0 ≤ st.carbs →
      0 ≤ (fatLoop db avoid lower per_meal cands st).kcal ∧
      0 ≤ (fatLoop db avoid lower per_meal cands st).protein ∧
      0 ≤ (fatLoop db avoid lower per_meal cands st).fat ∧
      0 ≤ (fatLoop db avoid lower per_meal cands st).carbs := by
  intro cands
  induction cands with
  | nil => intro st hst; simpa [fatLoop] using hst
  | cons c cands ih =>
    intro st hst
    simp only [fatLoop]
    by_cases hav : c ∈ avoid
    · simp only [if_pos hav]
      exact ih st hst
    · simp only [if_neg hav]
      cases hf : get_food db c with
      | none => exact ih st hst
      | some info =>
        have hg : (0 : ℚ) ≤ min 100 (max 30
            ((per_meal - st.kcal) / max info.kcal (1 / 1000000) * 100)) :=
          clamp_nonneg _ _ _ (by norm_num) (by norm_num)
        have hadd := addPortion_nonneg st _ hst (nutrition_for_nonneg db hdb c _ hg)
        by_cases hbr : lower ≤ (addPortion st (nutrition_for db c
            (min 100 (max 30 ((per_meal - st.kcal) / max info.kcal (1 / 1000000) * 100))))).kcal
        · simp only [if_pos hbr]
          exact hadd
        · simp only [if_neg hbr]
          exact ih _ hadd

/-- The carbohydrate loop yields a portion when the state is still empty
and under the lower bound and some usable candidate exists. -/
theorem carbLoop_ne_nil (db : DB) (avoid : List String) (lower per_meal : ℚ) :
    ∀ (cands : List String) (st : MealState),
      (st.portions ≠ [] ∨
        (st.kcal < lower ∧ ∃ c ∈ cands, c ∉ avoid ∧ (get_food db c).isSome)) →
      (carbLoop db avoid lower per_meal cands st).portions ≠ [] := by
  intro cands
  induction cands with
  | nil =>
    intro st h
    rcases h with h | ⟨_, c, hc, _⟩
    · simpa [carbLoop] using h
    · simp at hc
  | cons c cands ih =>
    intro st h
    rcases h with hne | ⟨hkl, w, hw, hwav, hwsome⟩
    · obtain ⟨l, hl⟩ := carbLoop_portions db avoid lower per_meal (c :: cands) st
      rw [hl]
      intro hcon
      exact hne (List.append_eq_nil.mp hcon).1
    · simp only [carbLoop]
      by_cases hav : c ∈ avoid
      · simp only [if_pos hav]
        apply ih st
        rcases List.mem_cons.mp hw with rfl | hw2
        · exact absurd hav hwav
        · exact Or.inr ⟨hkl, w, hw2, hwav, hwsome⟩
      · simp only [if_neg hav]
        cases hf : get_food db c with
        | none =>
          apply ih st
          rcases List.mem_cons.mp hw with rfl | hw2
          · rw [hf] at hwsome; simp at hwsome
          · exact Or.inr ⟨hkl, w, hw2, hwav, hwsome⟩
        | some info =>
          have hremv : (if st.kcal < lower then max (lower - st.kcal) 0
              else per_meal - st.kcal) = max (lower - st.kcal) 0 := if_pos hkl
          have hpos : ¬ ((if st.kcal < lower then max (lower - st.kcal) 0
              else per_meal - st.kcal) ≤ 0) := by
            rw [hremv]
            have : (0 : ℚ) < lower - st.kcal := by linarith
            have h2 : (0 : ℚ) < max (lower - st.kcal) 0 := lt_max_of_lt_left this
            linarith
          simp only [if_neg hpos]
          set fp := nutrition_for db c
            (min 250 (max 80
              ((if st.kcal < lower then max (lower - st.kcal) 0 else per_meal - st.kcal) /
                max info.kcal (1 / 1000000) * 100))) with hfp
          by_cases hbr : lower ≤ (addPortion st fp).kcal
          · simp only [if_pos hbr]
            intro hcon
            exact absurd (List.append_eq_nil.mp hcon).2 (by simp)
          · simp only [if_neg hbr]
            apply ih
            left
            intro hcon
            exact absurd (List.append_eq_nil.mp hcon).2 (by simp)

/-- One meal-loop iteration has non-negative totals whenever the catalog
macros are non-negative. -/
theorem buildPlan_nonneg (db : DB) (prefer avoid : List String) (lower per_meal ppm : ℚ)
    (hdb : ∀ f ∈ db.foods, 0 ≤ f.kcal ∧ 0 ≤ f.protein ∧ 0 ≤ f.fat ∧ 0 ≤ f.carbs) :
    0 ≤ (buildPlan db prefer avoid lower per_meal ppm).kcal ∧
    0 ≤ (buildPlan db prefer avoid lower per_meal ppm).protein ∧
    0 ≤ (buildPlan db prefer avoid lower per_meal ppm).fat ∧
    0 ≤ (buildPlan db prefer avoid lower per_meal ppm).carbs := by
  have hst1 : 0 ≤ (proteinSlot db prefer avoid ppm ⟨[], 0, 0, 0, 0⟩).kcal ∧
      0 ≤ (proteinSlot db prefer avoid ppm ⟨[], 0, 0, 0, 0⟩).protein ∧
      0 ≤ (proteinSlot db prefer avoid ppm ⟨[], 0, 0, 0, 0⟩).fat ∧
      0 ≤ (proteinSlot db prefer avoid ppm ⟨[], 0, 0, 0, 0⟩).carbs := by
    unfold proteinSlot
    cases hp : pickProtein db prefer avoid with
    | none => norm_num
    | some pf =>
      obtain ⟨picked, f⟩ := pf
      exact addPortion_nonneg _ _ (by norm_num)
        (nutrition_for_nonneg db hdb picked _ (clamp_nonneg _ _ _ (by norm_num) (by norm_num)))
  have hst2 := carbLoop_nonneg db avoid lower per_meal hdb (prefer ++ CARB_FOODS) _ hst1
  have hgoal : ∀ st3 : MealState,
      0 ≤ st3.kcal ∧ 0 ≤ st3.protein ∧ 0 ≤ st3.fat ∧ 0 ≤ st3.carbs →
      0 ≤ (MealPlan.mk st3.portions st3.kcal st3.protein st3.fat st3.carbs).kcal ∧
      0 ≤ (MealPlan.mk st3.portions st3.kcal st3.protein st3.fat st3.carbs).protein ∧
      0 ≤ (MealPlan.mk st3.portions st3.kcal st3.protein st3.fat st3.carbs).fat ∧
      0 ≤ (MealPlan.mk st3.portions st3.kcal st3.protein st3.fat st3.carbs).carbs :=
    fun _ h => h
  show 0 ≤ (MealPlan.mk _ _ _ _ _).kcal ∧ 0 ≤ (MealPlan.mk _ _ _ _ _).protein ∧
      0 ≤ (MealPlan.mk _ _ _ _ _).fat ∧ 0 ≤ (MealPlan.mk _ _ _ _ _).carbs
  apply hgoal
  by_cases hif : (carbLoop db avoid lower per_meal (prefer ++ CARB_FOODS)
      (proteinSlot db prefer avoid ppm ⟨[], 0, 0, 0, 0⟩)).kcal < lower
  · simp only [if_pos hif]
    exact fatLoop_nonneg db avoid lower per_meal hdb FAT_HELPERS _ hst2
  · simp only [if_neg hif]
    exact hst2

/-- One meal-loop iteration emits at least one portion whenever the lower
kcal bound is positive and some pool food is usable. -/
theorem buildPlan_ne_nil (db : DB) (prefer avoid : List String) (lower per_meal ppm : ℚ)
    (hlow : 0 < lower)
    (hpool : ∃ p ∈ PROTEIN_FOODS ++ CARB_FOODS ++ FAT_HELPERS,
      p ∉ avoid ∧ (get_food db p).isSome) :
    (buildPlan db prefer avoid lower per_meal ppm).items ≠ [] := by
  obtain ⟨p, hp, hpav, hpsome⟩ := hpool
  have hfatsub : ∀ q ∈ FAT_HELPERS, q ∈ PROTEIN_FOODS := by decide
  have hp2 : p ∈ PROTEIN_FOODS ∨ p ∈ CARB_FOODS := by
    rcases List.mem_append.mp hp with h | h
    · rcases List.mem_append.mp h with h1 | h1
      · exact Or.inl h1
      · exact Or.inr h1
    · exact Or.inl (hfatsub p h)
  have hmain : ∀ st1 : MealState,
      (st1.portions ≠ [] ∨
        (st1.kcal < lower ∧ ∃ c ∈ prefer ++ CARB_FOODS, c ∉ avoid ∧ (get_food db c).isSome)) →
      (if (carbLoop db avoid lower per_meal (prefer ++ CARB_FOODS) st1).kcal < lower
        then fatLoop db avoid lower per_meal FAT_HELPERS
          (carbLoop db avoid lower per_meal (prefer ++ CARB_FOODS) st1)
        else carbLoop db avoid lower per_meal (prefer ++ CARB_FOODS) st1).portions ≠ [] := by
    intro st1 h
    have h2 := carbLoop_ne_nil db avoid lower per_meal (prefer ++ CARB_FOODS) st1 h
    by_cases hif : (carbLoop db avoid lower per_meal (prefer ++ CARB_FOODS) st1).kcal < lower
    · simp only [if_pos hif]
      obtain ⟨l, hl⟩ := fatLoop_portions db avoid lower per_meal FAT_HELPERS
        (carbLoop db avoid lower per_meal (prefer ++ CARB_FOODS) st1)
      rw [hl]
      intro hcon
      exact h2 (List.append_eq_nil.mp hcon).1
    · simp only [if_neg hif]
      exact h2
  show (if (carbLoop db avoid lower per_meal (prefer ++ CARB_FOODS)
        (proteinSlot db prefer avoid ppm ⟨[], 0, 0, 0, 0⟩)).kcal < lower
      then fatLoop db avoid lower per_meal FAT_HELPERS
        (carbLoop db avoid lower per_meal (prefer ++ CARB_FOODS)
          (proteinSlot db prefer avoid ppm ⟨[], 0, 0, 0, 0⟩))
      else carbLoop db avoid lower per_meal (prefer ++ CARB_FOODS)
        (proteinSlot db prefer avoid ppm ⟨[], 0, 0, 0, 0⟩)).portions ≠ []
  cases hpick : pickProtein db prefer avoid with
  | some pf =>
    apply hmain
    left
    obtain ⟨picked, f⟩ := pf
    simp [proteinSlot, hpick, addPortion]
  | none =>
    have hpc : p ∈ CARB_FOODS := by
      rcases hp2 with h1 | h1
      · exfalso
        have := pickProtein_isSome db prefer avoid p h1 hpav hpsome
        rw [hpick] at this
        simp at this
      · exact h1
    have hst1 : proteinSlot db prefer avoid ppm ⟨[], 0, 0, 0, 0⟩ = ⟨[], 0, 0, 0, 0⟩ := by
      simp [proteinSlot, hpick]
    rw [hst1]
    apply hmain
    right
    exact ⟨hlow, p, List.mem_append_right _ hpc, hpav, hpsome⟩

/-- The head of one meal-loop iteration is the protein portion whenever
the protein scan picked a candidate. -/
theorem buildPlan_head (db : DB) (prefer avoid : List String) (lower per_meal ppm : ℚ)
    (name : String) (c : Food) (h : pickProtein db prefer avoid = some (name, c)) :
    (buildPlan db prefer avoid lower per_meal ppm).items.head? =
      some (nutrition_for db name (min 200 (max 50 (ppm / max c.protein 0.1 * 100)))) := by
  have hst1 : proteinSlot db prefer avoid ppm ⟨[], 0, 0, 0, 0⟩ =
      addPortion ⟨[], 0, 0, 0, 0⟩
        (nutrition_for db name (min 200 (max 50 (ppm / max c.protein 0.1 * 100)))) := by
    simp [proteinSlot, h]
  show (if (carbLoop db avoid lower per_meal (prefer ++ CARB_FOODS)
        (proteinSlot db prefer avoid ppm ⟨[], 0, 0, 0, 0⟩)).kcal < lower
      then fatLoop db avoid lower per_meal FAT_HELPERS
        (carbLoop db avoid lower per_meal (prefer ++ CARB_FOODS)
          (proteinSlot db prefer avoid ppm ⟨[], 0, 0, 0, 0⟩))
      else carbLoop db avoid lower per_meal (prefer ++ CARB_FOODS)
        (proteinSlot db prefer avoid ppm ⟨[], 0, 0, 0, 0⟩)).portions.head? = _
  rw [hst1]
  set st1 := addPortion ⟨[], 0, 0, 0, 0⟩
    (nutrition_for db name (min 200 (max 50 (ppm / max c.protein 0.1 * 100)))) with hst1def
  obtain ⟨l, hl⟩ := carbLoop_portions db avoid lower per_meal (prefer ++ CARB_FOODS) st1
  by_cases hif : (carbLoop db avoid lower per_meal (prefer ++ CARB_FOODS) st1).kcal < lower
  · simp only [if_pos hif]
    obtain ⟨l2, hl2⟩ := fatLoop_portions db avoid lower per_meal FAT_HELPERS
      (carbLoop db avoid lower per_meal (prefer ++ CARB_FOODS) st1)
    rw [hl2, hl, hst1def]
    simp [addPortion]
  · simp only [if_neg hif]
    rw [hl, hst1def]
    simp [addPortion]

/-! ## Claim theorems -/

/-- C1: For every segment parse_text processes, the emitted item carries
grams equal to to_grams(value, unit, resolved_name) when the quantity
extractor finds an amount, and grams defaults to exactly 100 when it does
not; parsing the rice-bowl input on the reference catalog yields one item
of exactly 210 grams. -/
theorem parse_grams_spec :
    (∀ (db : DB) (seg : String) (it : ParsedItem), processSegment db seg = some it →
      (∀ (v : ℚ) (u : Option String), extract_amount seg = some (v, u) →
        it.grams = to_grams v u (resolve_canonical db (namePart seg))) ∧
      (extract_amount seg = none → it.grams = 100)) ∧
    parse_text refDB "밥 1공기" = ([⟨"밥", "백미밥", 210⟩], []) := by
  constructor
  · intro db seg it h
    constructor
    · intro v u hvu
      simp only [processSegment, hvu] at h
      split at h
      · cases h; rfl
      · split at h
        · cases h; rfl
        · cases h
    · intro hnone
      simp only [processSegment, hnone] at h
      split at h
      · cases h; rfl
      · split at h
        · cases h; rfl
        · cases h
  · norm_num +decide [parse_text, parseLoop, processSegment, split_items, splitBy, replaceGrigo, isSep,
    namePart, collapseWS, collapseWSAux, trimChars, isWS, strip, extract_amount,
    searchNumUnit, matchNumUnit, findUnit, findTok, tokenAtStart, UNIT_TOKENS, digitsToNat,
    digitVal, to_grams, UNIT_TO_G, lookupStr, resolve_canonical, findFoodExact, get_food,
    pickShortest, strContains, containsSub, prefixAt, refDB]

/-- Witness for C1 at the rice-bowl input on the reference catalog. -/
theorem parse_grams_spec_witness :
    (⟨"밥", "백미밥", (210 : ℚ)⟩ : ParsedItem).grams =
      to_grams 1 (some "공기") (resolve_canonical refDB (namePart "밥 1공기")) :=
  (parse_grams_spec.1 refDB "밥 1공기" ⟨"밥", "백미밥", 210⟩
    (by norm_num +decide [parse_text, parseLoop, processSegment, split_items, splitBy, replaceGrigo, isSep,
    namePart, collapseWS, collapseWSAux, trimChars, isWS, strip, extract_amount,
    searchNumUnit, matchNumUnit, findUnit, findTok, tokenAtStart, UNIT_TOKENS, digitsToNat,
    digitVal, to_grams, UNIT_TO_G, lookupStr, resolve_canonical, findFoodExact, get_food,
    pickShortest, strContains, containsSub, prefixAt, refDB])).1 1 (some "공기")
    (by norm_num +decide [parse_text, parseLoop, processSegment, split_items, splitBy, replaceGrigo, isSep,
    namePart, collapseWS, collapseWSAux, trimChars, isWS, strip, extract_amount,
    searchNumUnit, matchNumUnit, findUnit, findTok, tokenAtStart, UNIT_TOKENS, digitsToNat,
    digitVal, to_grams, UNIT_TO_G, lookupStr, resolve_canonical, findFoodExact, get_food,
    pickShortest, strContains, containsSub, prefixAt, refDB])

/-- C2: compute_nutrition multiplies every per-100g macro of a catalog
food by grams/100 and returns the all-zero amount for a name without a
catalog entry; being a total function it never raises. -/
theorem compute_nutrition_linear :
    ∀ (db : DB) (name : String) (g : ℚ), 0 ≤ g →
      (∀ f : Food, get_food db name = some f →
        compute_nutrition db name g =
          ⟨f.kcal * g / 100, f.protein * g / 100, f.fat * g / 100, f.carbs * g / 100⟩) ∧
      (get_food db name = none → compute_nutrition db name g = ⟨0, 0, 0, 0⟩) := by
  intro db name g _
  constructor
  · intro f hf
    simp only [compute_nutrition, hf, Nutrition.mk.injEq]
    exact ⟨(mul_div_assoc _ _ _).symm, (mul_div_assoc _ _ _).symm,
      (mul_div_assoc _ _ _).symm, (mul_div_assoc _ _ _).symm⟩
  · intro hf
    simp [compute_nutrition, hf]

/-- Witness for C2 at 200 grams of the egg row of the reference catalog,
and at a name absent from it. -/
theorem compute_nutrition_linear_witness :
    compute_nutrition refDB "계란" 200 =
      ⟨155 * 200 / 100, 13 * 200 / 100, 11 * 200 / 100, (1.1 : ℚ) * 200 / 100⟩ ∧
    compute_nutrition refDB "없는음식" 50 = ⟨0, 0, 0, 0⟩ :=
  ⟨(compute_nutrition_linear refDB "계란" 200 (by norm_num)).1 ⟨"계란", 155, 13, 11, 1.1⟩
      (by norm_num +decide [get_food, findFoodExact, pickShortest, strContains, containsSub,
        prefixAt, refDB]),
   (compute_nutrition_linear refDB "없는음식" 50 (by norm_num)).2
      (by norm_num +decide [get_food, findFoodExact, pickShortest, strContains, containsSub,
        prefixAt, refDB])⟩

/-- C3: to_grams returns the value unchanged for a missing or unknown
unit and multiplies by the fixed table factor for the eight known units;
the food name argument never affects the result. -/
theorem to_grams_table :
    ∀ (v : ℚ) (name : String),
      to_grams v none name = v ∧
      (∀ u : String, lookupStr u UNIT_TO_G = none → to_grams v (some u) name = v) ∧
      to_grams v (some "g") name = v * 1 ∧
      to_grams v (some "kg") name = v * 1000 ∧
      to_grams v (some "ml") name = v * 1 ∧
      to_grams v (some "l") name = v * 1000 ∧
      to_grams v (some "개") name = v * 50 ∧
      to_grams v (some "공기") name = v * 210 ∧
      to_grams v (some "큰술") name = v * 13.5 ∧
      to_grams v (some "작은술") name = v * 4.5 ∧
      (∀ (u : Option String) (other : String), to_grams v u name = to_grams v u other) := by
  intro v name
  refine ⟨rfl, ?_, rfl, rfl, rfl, rfl, rfl, rfl, rfl, rfl, ?_⟩
  · intro u hu
    simp [to_grams, hu]
  · intro u other
    cases u <;> rfl

/-- Witness for C3 at an unknown unit token. -/
theorem to_grams_table_witness :
    to_grams 2 (some "oz") "치즈" = 2 :=
  (to_grams_table 2 "치즈").2.1 "oz" (by decide)

/-- C4 counterexample: resolve_canonical performs no substring stage, so
the claimed alias-exact-substring chain fails on a partial name: the
spec chain maps it to the only catalog row while the code returns the
input unchanged. -/
theorem resolver_chain_counterexample :
    resolve_canonical exDB "닭가슴" = "닭가슴" ∧
    resolveCanonicalSpec exDB "닭가슴" = "닭가슴살" := by
  exact ⟨by decide, by decide⟩

/-- C4 amended: resolve_canonical applies only the alias stage followed
by the exact catalog stage and otherwise returns the stripped input
unchanged; the substring stage with the shortest-canonical-name tie-break
is performed separately by get_food. -/
theorem resolver_chain_amended :
    ∀ (db : DB) (name : String),
      (∀ c : String, lookupStr (strip name) db.synonyms = some c →
        resolve_canonical db name = c) ∧
      (lookupStr (strip name) db.synonyms = none → resolve_canonical db name = strip name) ∧
      (∀ f : Food, findFoodExact name db.foods = none →
        get_food db name = some f →
        f ∈ db.foods ∧ strContains f.name name = true ∧
        ∀ g ∈ db.foods, strContains g.name name = true →
          f.name.data.length ≤ g.name.data.length) := by
  intro db name
  refine ⟨?_, ?_, ?_⟩
  · intro c hc
    simp [resolve_canonical, hc]
  · intro hc
    simp only [resolve_canonical, hc]
    cases hfind : findFoodExact (strip name) db.foods with
    | none => simp
    | some f =>
      simpa using (findFoodExact_some _ _ _ hfind).2
  · intro f hfind hget
    unfold get_food at hget
    rw [hfind] at hget
    obtain ⟨hmem, hmin⟩ := pickShortest_spec _ _ hget
    obtain ⟨hf1, hf2⟩ := List.mem_filter.mp hmem
    refine ⟨hf1, hf2, ?_⟩
    intro g hg hcont
    exact hmin g (List.mem_filter.mpr ⟨hg, hcont⟩)

/-- Witness for the C4 amended theorem: the alias stage on the reference
catalog and the substring stage of get_food on the one-row catalog. -/
theorem resolver_chain_amended_witness :
    resolve_canonical refDB "밥" = "백미밥" ∧
    (⟨"닭가슴살", 165, 31, (3.6 : ℚ), 0⟩ : Food) ∈ exDB.foods :=
  ⟨(resolver_chain_amended refDB "밥").1 "백미밥"
      (by norm_num +decide [lookupStr, strip, trimChars, isWS, refDB]),
   ((resolver_chain_amended exDB "닭가슴").2.2 ⟨"닭가슴살", 165, 31, 3.6, 0⟩
      (by norm_num +decide [findFoodExact, exDB])
      (by norm_num +decide [get_food, findFoodExact, pickShortest, strContains, containsSub,
        prefixAt, exDB])).1⟩

/-- C5: a segment whose resolved name has no catalog entry at all is
appended verbatim to the unresolved list and yields no ParsedItem, in
particular no fabricated zero-gram item. -/
theorem unresolved_segment_spec :
    ∀ (db : DB) (text seg : String), seg ∈ split_items text →
      get_food db (resolve_canonical db (namePart seg)) = none →
      get_food db (namePart seg) = none →
      processSegment db seg = none ∧ seg ∈ (parse_text db text).2 := by
  intro db text seg hmem h1 h2
  have hp : processSegment db seg = none := by
    simp only [processSegment, h1, h2]
  exact ⟨hp, mem_parseLoop_unresolved db _ seg hmem hp⟩

/-- Witness for C5 at an unknown food name on the reference catalog. -/
theorem unresolved_segment_spec_witness :
    processSegment refDB "정체불명" = none ∧
    "정체불명" ∈ (parse_text refDB "정체불명").2 :=
  unresolved_segment_spec refDB "정체불명" "정체불명"
    (by norm_num +decide [split_items, splitBy, replaceGrigo, isSep, trimChars, isWS])
    (by norm_num +decide [get_food, findFoodExact, pickShortest, strContains, containsSub,
      prefixAt, resolve_canonical, lookupStr, strip, trimChars, isWS, namePart, searchNumUnit,
      collapseWS, collapseWSAux, refDB])
    (by norm_num +decide [get_food, findFoodExact, pickShortest, strContains, containsSub,
      prefixAt, namePart, searchNumUnit, collapseWS, collapseWSAux, trimChars, isWS, refDB])

/-- C9: parse_macro_str fails with an error on a three-component input
whose components sum to a non-positive number, and for a positive sum it
succeeds with each component divided by the total. -/
theorem parse_macro_str_spec :
    ∀ (s a b c : String) (cv pv fv : ℚ),
      ((splitBy (fun ch => ch == ',') s.data).map (fun p => String.mk (trimChars p)))
        = [a, b, c] →
      parseFloat a = some cv → parseFloat b = some pv → parseFloat c = some fv →
      (cv + pv + fv ≤ 0 → ∃ msg, parse_macro_str s = Except.error msg) ∧
      (0 < cv + pv + fv →
        parse_macro_str s =
          Except.ok ⟨cv / (cv + pv + fv), pv / (cv + pv + fv), fv / (cv + pv + fv)⟩) := by
  intro s a b c cv pv fv hsplit ha hb hc
  constructor
  · intro hle
    refine ⟨"macro ratios must be positive", ?_⟩
    simp only [parse_macro_str, hsplit, ha, hb, hc]
    rw [if_pos hle]
  · intro hlt
    simp only [parse_macro_str, hsplit, ha, hb, hc]
    rw [if_neg (not_le.mpr hlt)]

/-- Witness for C9: the all-zero ratio string fails, the 4,3,3 string
normalizes. -/
theorem parse_macro_str_spec_witness :
    (∃ msg, parse_macro_str "0,0,0" = Except.error msg) ∧
    parse_macro_str "4,3,3" =
      Except.ok ⟨4 / (4 + 3 + 3), 3 / (4 + 3 + 3), 3 / (4 + 3 + 3)⟩ :=
  ⟨(parse_macro_str_spec "0,0,0" "0" "0" "0" 0 0 0
      (by norm_num +decide [splitBy, trimChars, isWS])
      (by norm_num +decide [parseFloat, parseUnsigned, digitsToNat, digitVal, trimChars, isWS])
      (by norm_num +decide [parseFloat, parseUnsigned, digitsToNat, digitVal, trimChars, isWS])
      (by norm_num +decide [parseFloat, parseUnsigned, digitsToNat, digitVal, trimChars, isWS])).1
      (by norm_num),
   (parse_macro_str_spec "4,3,3" "4" "3" "3" 4 3 3
      (by norm_num +decide [splitBy, trimChars, isWS])
      (by norm_num +decide [parseFloat, parseUnsigned, digitsToNat, digitVal, trimChars, isWS])
      (by norm_num +decide [parseFloat, parseUnsigned, digitsToNat, digitVal, trimChars, isWS])
      (by norm_num +decide [parseFloat, parseUnsigned, digitsToNat, digitVal, trimChars, isWS])).2
      (by norm_num)⟩

/-- C6: recommend_meals returns exactly meal_count plans; every plan has a
non-empty item list whenever some pool food is in the catalog and not
avoided, and non-negative totals whenever the catalog macros are
non-negative. -/
theorem recommend_meals_shape :
    ∀ (db : DB) (tk : ℚ) (mr : List (String × ℚ)) (bw : ℚ) (meals : Nat)
      (avoid prefer : List String),
      1 ≤ meals → 0 < tk →
      (recommend_meals db tk mr bw meals avoid prefer).length = meals ∧
      ((∃ p ∈ PROTEIN_FOODS ++ CARB_FOODS ++ FAT_HELPERS,
          p ∉ avoid ∧ (get_food db p).isSome) →
        ∀ plan ∈ recommend_meals db tk mr bw meals avoid prefer, plan.items ≠ []) ∧
      ((∀ f ∈ db.foods, 0 ≤ f.kcal ∧ 0 ≤ f.protein ∧ 0 ≤ f.fat ∧ 0 ≤ f.carbs) →
        ∀ plan ∈ recommend_meals db tk mr bw meals avoid prefer,
          0 ≤ plan.kcal ∧ 0 ≤ plan.protein ∧ 0 ≤ plan.fat ∧ 0 ≤ plan.carbs) := by
  intro db tk mr bw meals avoid prefer hm htk
  have hmQ : (0 : ℚ) < meals := by
    have h1 : (1 : ℚ) ≤ meals := by exact_mod_cast hm
    linarith
  have hlow : (0 : ℚ) < tk / meals * 0.9 := by
    have := div_pos htk hmQ
    nlinarith
  refine ⟨?_, ?_, ?_⟩
  · simp only [recommend_meals]
    exact mealsLoop_length db prefer avoid _ _ _ meals
  · intro hpool plan hplan
    simp only [recommend_meals] at hplan
    rw [mem_mealsLoop _ _ _ _ _ _ _ _ hplan]
    exact buildPlan_ne_nil db prefer avoid _ _ _ hlow hpool
  · intro hdb plan hplan
    simp only [recommend_meals] at hplan
    rw [mem_mealsLoop _ _ _ _ _ _ _ _ hplan]
    exact buildPlan_nonneg db prefer avoid _ _ _ hdb

/-- Witness for C6 at the documented call with the reference catalog. -/
theorem recommend_meals_shape_witness :
    (recommend_meals refDB 1800 mrW 70 3 [] []).length = 3 :=
  (recommend_meals_shape refDB 1800 mrW 70 3 [] [] (by norm_num) (by norm_num)).1

/-- C7: the protein portion is the first non-avoided catalog-present
candidate of prefer followed by the protein pool, and its grams follow
the clamped per-meal protein heuristic. -/
theorem protein_slot_spec :
    (∀ (db : DB) (prefer avoid : List String) (name : String) (c : Food),
      pickProtein db prefer avoid = some (name, c) →
        name ∉ avoid ∧ get_food db name = some c ∧
        ∃ l1 l2, (prefer ++ PROTEIN_FOODS).filter (fun f => decide (f ∉ avoid))
            = l1 ++ name :: l2 ∧ ∀ x ∈ l1, get_food db x = none) ∧
    (∀ (db : DB) (tk : ℚ) (mr : List (String × ℚ)) (bw : ℚ) (meals : Nat)
      (avoid prefer : List String) (name : String) (c : Food) (plan : MealPlan),
      pickProtein db prefer avoid = some (name, c) →
      plan ∈ recommend_meals db tk mr bw meals avoid prefer →
      plan.items.head? = some (nutrition_for db name
        (min 200 (max 50
          ((max (1.6 * bw) (tk * ((lookupStr "protein" mr).getD 0.3) / 4) / (meals : ℚ))
            / max c.protein 0.1 * 100))))) := by
  constructor
  · intro db prefer avoid name c h
    unfold pickProtein at h
    obtain ⟨l1, a, l2, hsplit, ha, hmiss⟩ := findSome?_split _ _ _ h
    cases hga : get_food db a with
    | none => rw [hga] at ha; simp at ha
    | some f =>
      rw [hga] at ha
      simp only [Option.map_some', Option.some.injEq, Prod.mk.injEq] at ha
      obtain ⟨rfl, rfl⟩ := ha
      have hamem : a ∈ (prefer ++ PROTEIN_FOODS).filter (fun f => decide (f ∉ avoid)) := by
        rw [hsplit]
        exact List.mem_append_right _ (List.mem_cons_self _ _)
      have hanot : a ∉ avoid := by
        have := (List.mem_filter.mp hamem).2
        simpa using this
      refine ⟨hanot, hga, l1, l2, hsplit, ?_⟩
      intro x hx
      have := hmiss x hx
      cases hgx : get_food db x with
      | none => rfl
      | some g => rw [hgx] at this; simp at this
  · intro db tk mr bw meals avoid prefer name c plan hpick hplan
    simp only [recommend_meals] at hplan
    rw [mem_mealsLoop _ _ _ _ _ _ _ _ hplan]
    exact buildPlan_head db prefer avoid _ _ _ name c hpick

/-- Witness for C7: on the reference catalog with the carbohydrate and
fat pools avoided, the single plan starts with the chicken-breast portion
sized by the clamp formula. -/
theorem protein_slot_spec_witness :
    ((recommend_meals refDB 1800 mrW 70 1 avoidCarbFat []).headI).items.head? =
      some (nutrition_for refDB "닭가슴살"
        (min 200 (max 50
          ((max (1.6 * 70) (1800 * ((lookupStr "protein" mrW).getD 0.3) / 4) / ((1 : Nat) : ℚ))
            / max (31 : ℚ) 0.1 * 100)))) :=
  protein_slot_spec.2 refDB 1800 mrW 70 1 avoidCarbFat [] "닭가슴살"
    ⟨"닭가슴살", 165, 31, 3.6, 0⟩ _
    (by norm_num +decide [pickProtein, get_food, findFoodExact, pickShortest, strContains,
      containsSub, prefixAt, PROTEIN_FOODS, avoidCarbFat, refDB])
    (by norm_num +decide [recommend_meals, mealsLoop, buildPlan, proteinSlot, pickProtein,
      carbLoop, fatLoop, addPortion, nutrition_for, get_food, findFoodExact, pickShortest,
      strContains, containsSub, prefixAt, lookupStr, PROTEIN_FOODS, CARB_FOODS, FAT_HELPERS,
      mrW, avoidCarbFat, refDB])

/-- C8: when every protein candidate is avoided the protein slot is
skipped without error and each plan is exactly the carbohydrate pass
followed, under the lower bound, by the fat-helper pass. -/
theorem protein_slot_skipped :
    ∀ (db : DB) (tk : ℚ) (mr : List (String × ℚ)) (bw : ℚ) (meals : Nat)
      (avoid prefer : List String),
      (∀ p ∈ prefer ++ PROTEIN_FOODS, p ∈ avoid) →
      pickProtein db prefer avoid = none ∧
      ∀ plan ∈ recommend_meals db tk mr bw meals avoid prefer,
        plan =
          (let per_meal := tk / (meals : ℚ)
           let lower := per_meal * 0.9
           let st2 := carbLoop db avoid lower per_meal (prefer ++ CARB_FOODS) ⟨[], 0, 0, 0, 0⟩
           let st3 := if st2.kcal < lower
             then fatLoop db avoid lower per_meal FAT_HELPERS st2 else st2
           ⟨st3.portions, st3.kcal, st3.protein, st3.fat, st3.carbs⟩) := by
  intro db tk mr bw meals avoid prefer hav
  have hpick : pickProtein db prefer avoid = none := by
    unfold pickProtein
    have hfilt : (prefer ++ PROTEIN_FOODS).filter (fun f => decide (f ∉ avoid)) = [] := by
      rw [List.filter_eq_nil]
      intro a ha
      simp [hav a ha]
    rw [hfilt]
    rfl
  refine ⟨hpick, ?_⟩
  intro plan hplan
  simp only [recommend_meals] at hplan
  rw [mem_mealsLoop _ _ _ _ _ _ _ _ hplan]
  simp only [buildPlan, proteinSlot, hpick]

/-- Witness for C8 with the whole protein pool avoided. -/
theorem protein_slot_skipped_witness :
    pickProtein refDB [] PROTEIN_FOODS = none ∧
    (recommend_meals refDB 1800 mrW 70 1 PROTEIN_FOODS []).headI =
      (let per_meal := (1800 : ℚ) / ((1 : Nat) : ℚ)
       let lower := per_meal * 0.9
       let st2 := carbLoop refDB PROTEIN_FOODS lower per_meal ([] ++ CARB_FOODS) ⟨[], 0, 0, 0, 0⟩
       let st3 := if st2.kcal < lower
         then fatLoop refDB PROTEIN_FOODS lower per_meal FAT_HELPERS st2 else st2
       ⟨st3.portions, st3.kcal, st3.protein, st3.fat, st3.carbs⟩) :=
  ⟨(protein_slot_skipped refDB 1800 mrW 70 1 PROTEIN_FOODS [] (by decide)).1,
   (protein_slot_skipped refDB 1800 mrW 70 1 PROTEIN_FOODS [] (by decide)).2 _
     (by norm_num +decide [recommend_meals, mealsLoop, buildPlan, proteinSlot, pickProtein,
       carbLoop, fatLoop, addPortion, nutrition_for, get_food, findFoodExact, pickShortest,
       strContains, containsSub, prefixAt, lookupStr, PROTEIN_FOODS, CARB_FOODS, FAT_HELPERS,
       mrW, refDB])⟩

/-- C10: all plans of one recommend_meals call are pairwise identical,
since every meal slot recomputes from the same per-meal targets. -/
theorem recommend_meals_plans_identical :
    ∀ (db : DB) (tk : ℚ) (mr : List (String × ℚ)) (bw : ℚ) (meals : Nat)
      (avoid prefer : List String) (p q : MealPlan),
      p ∈ recommend_meals db tk mr bw meals avoid prefer →
      q ∈ recommend_meals db tk mr bw meals avoid prefer →
      p = q := by
  intro db tk mr bw meals avoid prefer p q hp hq
  simp only [recommend_meals] at hp hq
  exact (mem_mealsLoop _ _ _ _ _ _ _ _ hp).trans (mem_mealsLoop _ _ _ _ _ _ _ _ hq).symm

/-- Witness for C10: first and last of a two-meal recommendation agree. -/
theorem recommend_meals_plans_identical_witness :
    (recommend_meals refDB 1800 mrW 70 2 avoidCarbFat []).headI =
      (recommend_meals refDB 1800 mrW 70 2 avoidCarbFat []).getLastD default :=
  recommend_meals_plans_identical refDB 1800 mrW 70 2 avoidCarbFat [] _ _
    (by norm_num +decide [recommend_meals, mealsLoop, buildPlan, proteinSlot, pickProtein, carbLoop, fatLoop,
      addPortion, nutrition_for, get_food, findFoodExact, pickShortest, strContains,
      containsSub, prefixAt, lookupStr, PROTEIN_FOODS, CARB_FOODS, FAT_HELPERS, mrW,
      avoidCarbFat, refDB])
    (by norm_num +decide [recommend_meals, mealsLoop, buildPlan, proteinSlot, pickProtein, carbLoop, fatLoop,
      addPortion, nutrition_for, get_food, findFoodExact, pickShortest, strContains,
      containsSub, prefixAt, lookupStr, PROTEIN_FOODS, CARB_FOODS, FAT_HELPERS, mrW,
      avoidCarbFat, refDB])

end DietBot
